import Mathlib

/-!
# Titan release store (`titan.go`)

A shallow embedding of the Titan adapter for `go-update`: the wire model
(`Release`, `Artifact`), the conversion `toRelease`, the fetch `Store.releases`
and the two public operations `Store.GetRelease` and `Store.LatestReleases`.

Go values are embedded as follows.

* A pointer that the JSON decoder fills in (`*Release`, `*Artifact`) is an
  `Option`: `none` is the nil pointer that a JSON `null` decodes to.
* A pointer that the code itself takes with `&T{...}` is never nil and is
  embedded as the value it points to.
* A nil slice and an empty slice are both the empty list.
* A Go function returning `(value, error)` returns both components; a run-time
  panic is a separate outcome.
* The standard library and the imported packages (`net/http`, `encoding/json`,
  `pkg/errors`, `tj/go/http/request`, `tj/go-update`) are outside the
  repository; what the adapter needs of them is the environment `Env`.
-/

namespace Titan

set_option maxRecDepth 100000

/-! ## Data model -/

/-- Go `time.Time` as an instant: seconds and nanoseconds since Go's zero time
(January 1 of year 1, 00:00:00 UTC), so that the zero value is `⟨0, 0⟩`. The adapter
only copies it. -/
structure Time where
  sec : Int
  nsec : Nat
deriving DecidableEq, Repr

/-- Store is the store implementation. -/
structure Store where
  URL : String
  Product : String
  Channel : String
  Version : String
  AccessKey : String
deriving DecidableEq, Repr

/-- Artifact model. `Size` is a Go `int64`. -/
structure Artifact where
  Name : String
  URL : String
  Size : Int
deriving DecidableEq, Repr

/-- Release model. `Artifacts` is a Go `[]*Artifact`. -/
structure Release where
  Version : String
  Notes : String
  NotesHTML : String
  CreatedAt : Time
  Artifacts : List (Option Artifact)
deriving DecidableEq, Repr

namespace update

/-- Asset of `tj/go-update`, with the fields the adapter sets. `Size` is a Go `int`. -/
structure Asset where
  Name : String
  Size : Int
  URL : String
deriving DecidableEq, Repr

/-- Release of `tj/go-update`, with the fields the adapter sets. -/
structure Release where
  Version : String
  Notes : String
  PublishedAt : Time
  Assets : List Asset
deriving DecidableEq, Repr

end update

/-- Errors the adapter returns: `errors.Wrap(cause, message)`,
`request.Error(code)` and the sentinel `update.ErrNotFound`. -/
inductive Error where
  | wrap (cause : String) (message : String)
  | status (code : Int)
  | ErrNotFound
deriving DecidableEq, Repr

/-- Run-time panics. -/
inductive Panic where
  | nilDereference
deriving DecidableEq, Repr

/-- How a Go call `(value, error)` ends: it returns both components, or panics. -/
inductive Outcome (α : Type) where
  | returns (value : α) (err : Option Error)
  | panics (p : Panic)
deriving DecidableEq, Repr

/-- HTTP request as built by the adapter. `URL` is the string form of the request's
parsed URL (`req.URL.String()`). -/
structure Request where
  Method : String
  URL : String
  Header : List (String × String)
deriving DecidableEq, Repr

/-- HTTP response as read by the adapter. -/
structure Response where
  StatusCode : Int
  Body : String
deriving DecidableEq, Repr

/-- A call together with the requests it handed to `http.DefaultClient.Do`. -/
structure Run (α : Type) where
  sent : List Request
  outcome : Outcome α

/-- The platform and the libraries the adapter calls: the width of Go `int`; the URL
that `http.NewRequest` gives the request for a method and a raw URL string (it parses
the string, so the string form of the result can differ from the raw string), or its
error; what `http.DefaultClient.Do` answers to a request; and what
`json.Decoder.Decode` makes of a body when the target is a `[]*Release`. -/
structure Env where
  intBits : Nat
  requestURL : String → String → Except String String
  Do : Request → Except String Response
  Decode : String → Except String (List (Option Release))

deriving instance DecidableEq for Except

/-! ## Library operations -/

/-- Go conversion of an integer to a signed integer type of `w` bits. -/
def toSigned (w : Nat) (x : Int) : Int :=
  (x + 2 ^ (w - 1)) % 2 ^ w - 2 ^ (w - 1)

/-- Range of a Go signed integer type of `w` bits. -/
def fitsSigned (w : Nat) (x : Int) : Prop := -(2 ^ (w - 1)) ≤ x ∧ x < 2 ^ (w - 1)

instance (w : Nat) (x : Int) : Decidable (fitsSigned w x) := by
  unfold fitsSigned; exact inferInstance

/-- Range of a Go `int64`. -/
def isInt64 (x : Int) : Prop := -(2 ^ 63) ≤ x ∧ x < 2 ^ 63

instance (x : Int) : Decidable (isInt64 x) := by
  unfold isInt64; exact inferInstance

/-- `http.NewRequest(method, url, nil)`: a request for the parsed URL with no header,
or an error. -/
def NewRequest (env : Env) (method url : String) : Except String Request :=
  match env.requestURL method url with
  | .error err => .error err
  | .ok u => .ok { Method := method, URL := u, Header := [] }

/-- `Header.Set(key, value)` for a key in canonical form: replaces the key's value. -/
def Header.Set (h : List (String × String)) (key value : String) : List (String × String) :=
  h.filter (fun kv => kv.1 != key) ++ [(key, value)]

/-- `Header.Get(key)` for a key in canonical form. -/
def Header.Get (h : List (String × String)) (key : String) : Option String :=
  (h.find? (fun kv => kv.1 == key)).map (fun kv => kv.2)

/-! ## The adapter -/

/-- Loop of `toRelease` over `r.Artifacts`, appending to `out.Assets`. -/
def toReleaseLoop (intBits : Nat) :
    List (Option Artifact) → List update.Asset → Except Panic (List update.Asset)
  | [], assets => .ok assets
  | none :: _, _ => .error .nilDereference
  | some f :: fs, assets =>
      toReleaseLoop intBits fs
        (assets ++ [{ Name := f.Name, Size := toSigned intBits f.Size, URL := f.URL }])

/-- toRelease returns a Release. -/
def toRelease (intBits : Nat) : Option Release → Except Panic update.Release
  | none => .error .nilDereference
  | some r =>
      match toReleaseLoop intBits r.Artifacts [] with
      | .error p => .error p
      | .ok assets =>
          .ok { Version := r.Version, Notes := r.Notes, PublishedAt := r.CreatedAt,
                Assets := assets }

/-- Loop of `releases` over the decoded releases, appending to `all`. -/
def releasesLoop (intBits : Nat) :
    List (Option Release) → List update.Release → Except Panic (List update.Release)
  | [], all => .ok all
  | r :: rs, all =>
      match toRelease intBits r with
      | .error p => .error p
      | .ok out => releasesLoop intBits rs (all ++ [out])

/-- releases returns all releases. -/
def Store.releases (env : Env) (s : Store) : Run (List update.Release) :=
  let url := s.URL ++ "/" ++ s.Product ++ "/" ++ s.Channel
  match NewRequest env "GET" url with
  | .error err => ⟨[], .returns [] (some (.wrap err "creating request"))⟩
  | .ok req0 =>
      let req : Request :=
        { req0 with Header := Header.Set req0.Header "Authorization" ("Bearer " ++ s.AccessKey) }
      match env.Do req with
      | .error err => ⟨[req], .returns [] (some (.wrap err "requesting"))⟩
      | .ok res =>
          if res.StatusCode ≥ 400 then
            ⟨[req], .returns [] (some (.status res.StatusCode))⟩
          else
            match env.Decode res.Body with
            | .error err => ⟨[req], .returns [] (some (.wrap err "unmarshaling"))⟩
            | .ok releases =>
                match releasesLoop env.intBits releases [] with
                | .error p => ⟨[req], .panics p⟩
                | .ok all => ⟨[req], .returns all none⟩

/-- Loop of `GetRelease`: the first release with the given version. -/
def getReleaseLoop (version : String) : List update.Release → Option update.Release
  | [] => none
  | r :: rs => if r.Version = version then some r else getReleaseLoop version rs

/-- GetRelease returns the specified release or ErrNotFound. -/
def Store.GetRelease (env : Env) (s : Store) (version : String) :
    Run (Option update.Release) :=
  let run := s.releases env
  match run.outcome with
  | .panics p => ⟨run.sent, .panics p⟩
  | .returns _ (some err) => ⟨run.sent, .returns none (some err)⟩
  | .returns releases none =>
      match getReleaseLoop version releases with
      | some r => ⟨run.sent, .returns (some r) none⟩
      | none => ⟨run.sent, .returns none (some .ErrNotFound)⟩

/-- Loop of `LatestReleases`: appends to `latest` until the version is met. -/
def latestReleasesLoop (version : String) :
    List update.Release → List update.Release → List update.Release
  | [], latest => latest
  | r :: rs, latest =>
      if r.Version = version then latest else latestReleasesLoop version rs (latest ++ [r])

/-- LatestReleases returns releases newer than Version, or nil. -/
def Store.LatestReleases (env : Env) (s : Store) : Run (List update.Release) :=
  let run := s.releases env
  match run.outcome with
  | .panics p => ⟨run.sent, .panics p⟩
  | .returns _ (some err) => ⟨run.sent, .returns [] (some err)⟩
  | .returns releases none =>
      ⟨run.sent, .returns (latestReleasesLoop s.Version releases []) none⟩

/-! ## A sample service

A concrete environment: `http.NewRequest` on the URLs of the samples, a transport that
answers by channel, and a decoder given by its value on the bodies that the transport
serves; on a 64-bit and on a 32-bit platform. -/

/-- Wire release with a version and nothing else set. -/
def wireRelease (version : String) : Release :=
  { Version := version, Notes := "", NotesHTML := "", CreatedAt := ⟨0, 0⟩, Artifacts := [] }

/-- Normalized release with a version and nothing else set. -/
def plainRelease (version : String) : update.Release :=
  { Version := version, Notes := "", PublishedAt := ⟨0, 0⟩, Assets := [] }

/-- Wire release with notes, the date 2017-06-01T00:00:00Z and two artifacts. -/
def fullRelease : Release :=
  { Version := "2.0", Notes := "fixes", NotesHTML := "<p>fixes</p>",
    CreatedAt := ⟨63631872000, 0⟩,
    Artifacts := [some ⟨"app.tgz", "https://dl.example/app.tgz", 1024⟩,
                  some ⟨"app.zip", "https://dl.example/app.zip", 5000000000⟩] }

/-- Feed of the channel `stable`. -/
def stableBody : String :=
  "[\x7b\"version\":\"2.0\"\x7d,\x7b\"version\":\"1.5\"\x7d,\x7b\"version\":\"1.0\"\x7d]"

/-- Feed of the channels `beta` and `choices`. -/
def betaBody : String :=
  "[\x7b\"version\":\"2.0\"\x7d,\x7b\"version\":\"1.0\"\x7d]"

/-- Feed of the channel `full`. -/
def fullBody : String :=
  "[\x7b\"version\":\"2.0\",\"notes\":\"fixes\",\"notes_html\":\"<p>fixes</p>\"," ++
  "\"date\":\"2017-06-01T00:00:00Z\",\"artifacts\":[" ++
  "\x7b\"name\":\"app.tgz\",\"url\":\"https://dl.example/app.tgz\",\"size\":1024\x7d," ++
  "\x7b\"name\":\"app.zip\",\"url\":\"https://dl.example/app.zip\",\"size\":5000000000\x7d]\x7d]"

/-- URLs of the sample service that parse to themselves. -/
def sampleURLs : List String :=
  ["stable", "beta", "full", "blank", "choices", "cached", "broken", "null", "nullartifact",
   "down", "gone"].map (fun channel => "https://titan.example/app/" ++ channel)

/-- What `http.NewRequest` makes of the URLs of the samples: a space in the path is
escaped, the string `//` (empty host, empty path) has the empty string form, and the
URLs of `sampleURLs` are kept. -/
def sampleRequestURL (_method url : String) : Except String String :=
  if url = "https://titan.example/my app/stable" then .ok "https://titan.example/my%20app/stable"
  else if url = "//" then .ok ""
  else if url ∈ sampleURLs then .ok url
  else .error "not a URL of the sample"

/-- Transport of the sample service. -/
def sampleDo (req : Request) : Except String Response :=
  if req.Header ≠ [("Authorization", "Bearer k3y")] then .ok ⟨401, "denied"⟩
  else if req.URL = "https://titan.example/app/stable" then .ok ⟨200, stableBody⟩
  else if req.URL = "https://titan.example/app/beta" then .ok ⟨200, betaBody⟩
  else if req.URL = "https://titan.example/app/full" then .ok ⟨200, fullBody⟩
  else if req.URL = "https://titan.example/app/blank" then .ok ⟨200, "[\x7b\x7d]"⟩
  else if req.URL = "https://titan.example/app/choices" then .ok ⟨300, betaBody⟩
  else if req.URL = "https://titan.example/app/cached" then .ok ⟨304, ""⟩
  else if req.URL = "https://titan.example/app/broken" then .ok ⟨200, "[\x7b\"version\":"⟩
  else if req.URL = "https://titan.example/app/null" then .ok ⟨200, "[null]"⟩
  else if req.URL = "https://titan.example/app/nullartifact" then
    .ok ⟨200, "[\x7b\"version\":\"1.0\",\"artifacts\":[null]\x7d]"⟩
  else if req.URL = "https://titan.example/app/down" then .ok ⟨500, "oops"⟩
  else if req.URL = "https://titan.example/app/gone" then .ok ⟨404, "[]"⟩
  else if req.URL = "https://titan.example/my%20app/stable" then .ok ⟨404, "[]"⟩
  else .error "no such host"

/-- Decoder of the sample service, on the bodies it serves. -/
def sampleDecode (body : String) : Except String (List (Option Release)) :=
  if body = stableBody then
    .ok [some (wireRelease "2.0"), some (wireRelease "1.5"), some (wireRelease "1.0")]
  else if body = betaBody then
    .ok [some (wireRelease "2.0"), some (wireRelease "1.0")]
  else if body = fullBody then .ok [some fullRelease]
  else if body = "[\x7b\x7d]" then .ok [some (wireRelease "")]
  else if body = "[]" then .ok []
  else if body = "[null]" then .ok [none]
  else if body = "[\x7b\"version\":\"1.0\",\"artifacts\":[null]\x7d]" then
    .ok [some { wireRelease "1.0" with Artifacts := [none] }]
  else if body = "" then .error "EOF"
  else .error "unexpected EOF"

/-- The sample service, on a 64-bit platform. -/
def sampleEnv : Env :=
  { intBits := 64, requestURL := sampleRequestURL, Do := sampleDo, Decode := sampleDecode }

/-- The sample service, on a 32-bit platform. -/
def sampleEnv32 : Env :=
  { intBits := 32, requestURL := sampleRequestURL, Do := sampleDo, Decode := sampleDecode }

/-- The sample service behind a transport that answers every request with the status
200 and the feed of the channel `beta`. -/
def sampleEnv200 : Env :=
  { intBits := 64, requestURL := sampleRequestURL, Do := fun _ => .ok ⟨200, betaBody⟩,
    Decode := sampleDecode }

/-- Store on a channel of the sample service, at a current version. -/
def sampleStore (channel version : String) : Store :=
  { URL := "https://titan.example", Product := "app", Channel := channel,
    Version := version, AccessKey := "k3y" }

/-- Store whose product name holds a space. -/
def spacedStore : Store :=
  { URL := "https://titan.example", Product := "my app", Channel := "stable",
    Version := "1.0", AccessKey := "k3y" }

/-! ## Loop lemmas -/

theorem latestReleasesLoop_eq (version : String) (rs latest : List update.Release) :
    latestReleasesLoop version rs latest
      = latest ++ rs.takeWhile (fun r => decide (r.Version ≠ version)) := by
  induction rs generalizing latest with
  | nil => simp [latestReleasesLoop]
  | cons r rs ih =>
      by_cases h : r.Version = version
      · simp [latestReleasesLoop, h]
      · simp [latestReleasesLoop, h, ih]

theorem takeWhile_append_rest {α : Type} (p : α → Bool) (l : List α) :
    ∃ rest, l = l.takeWhile p ++ rest ∧ ∀ x ∈ rest.head?, p x = false := by
  induction l with
  | nil => exact ⟨[], by simp⟩
  | cons a l ih =>
      cases hp : p a with
      | false => exact ⟨a :: l, by simp [List.takeWhile, hp]⟩
      | true =>
          obtain ⟨rest, h1, h2⟩ := ih
          refine ⟨rest, ?_, h2⟩
          simp only [List.takeWhile, hp, List.cons_append]
          exact congrArg _ h1

theorem mem_takeWhile_holds {α : Type} (p : α → Bool) (l : List α) :
    ∀ x ∈ l.takeWhile p, p x = true := by
  induction l with
  | nil => simp
  | cons a l ih =>
      cases hp : p a with
      | false => simp [List.takeWhile, hp]
      | true =>
          intro x hx
          simp only [List.takeWhile, hp, List.mem_cons] at hx
          rcases hx with rfl | hx
          · exact hp
          · exact ih x hx

theorem takeWhile_longest {α : Type} (p : α → Bool) (l pre : List α)
    (hpre : pre <+: l) (hall : ∀ x ∈ pre, p x = true) : pre <+: l.takeWhile p := by
  induction l generalizing pre with
  | nil =>
      have : pre = [] := List.prefix_nil.mp hpre
      subst this; simp
  | cons a l ih =>
      cases pre with
      | nil => exact List.nil_prefix
      | cons b pre =>
          obtain ⟨rfl, hpre2⟩ := List.cons_prefix_cons.mp hpre
          have hb : p b = true := hall b (by simp)
          simp only [List.takeWhile, hb]
          exact List.cons_prefix_cons.mpr
            ⟨rfl, ih pre hpre2 (fun x hx => hall x (List.mem_cons_of_mem _ hx))⟩

theorem takeWhile_eq_self {α : Type} (p : α → Bool) (l : List α)
    (hall : ∀ x ∈ l, p x = true) : l.takeWhile p = l := by
  induction l with
  | nil => rfl
  | cons a l ih =>
      have ha : p a = true := hall a (by simp)
      simp only [List.takeWhile, ha]
      exact congrArg _ (ih (fun x hx => hall x (List.mem_cons_of_mem _ hx)))

theorem getReleaseLoop_spec (version : String) (rs : List update.Release) :
    (getReleaseLoop version rs = none ∧ ∀ r ∈ rs, r.Version ≠ version)
      ∨ ∃ pre r post, rs = pre ++ r :: post ∧ r.Version = version
          ∧ (∀ x ∈ pre, x.Version ≠ version) ∧ getReleaseLoop version rs = some r := by
  induction rs with
  | nil => exact Or.inl ⟨rfl, by simp⟩
  | cons a rs ih =>
      by_cases h : a.Version = version
      · exact Or.inr ⟨[], a, rs, rfl, h, by simp, by simp [getReleaseLoop, h]⟩
      · rcases ih with ⟨hnone, hall⟩ | ⟨pre, r, post, hrs, hv, hpre, hsome⟩
        · refine Or.inl ⟨by simp [getReleaseLoop, h, hnone], ?_⟩
          intro r hr
          rcases List.mem_cons.mp hr with rfl | hr
          · exact h
          · exact hall r hr
        · refine Or.inr ⟨a :: pre, r, post, by simp [hrs], hv, ?_, by simp [getReleaseLoop, h, hsome]⟩
          intro x hx
          rcases List.mem_cons.mp hx with rfl | hx
          · exact h
          · exact hpre x hx

/-- The fetch, once the request is accepted and the transport has answered. -/
theorem releases_of_response (env : Env) (s : Store) (u : String) (res : Response)
    (hreq : env.requestURL "GET" (s.URL ++ "/" ++ s.Product ++ "/" ++ s.Channel) = .ok u)
    (hdo : env.Do ⟨"GET", u, [("Authorization", "Bearer " ++ s.AccessKey)]⟩ = .ok res) :
    (s.releases env).outcome =
      if res.StatusCode ≥ 400 then .returns [] (some (.status res.StatusCode))
      else match env.Decode res.Body with
        | .error err => .returns [] (some (.wrap err "unmarshaling"))
        | .ok releases =>
            match releasesLoop env.intBits releases [] with
            | .error p => .panics p
            | .ok all => .returns all none := by
  simp only [Store.releases, NewRequest, hreq, Header.Set, List.filter_nil, List.nil_append, hdo]
  split
  · rfl
  · cases hd : env.Decode res.Body with
    | error err => rfl
    | ok releases =>
        cases hl : releasesLoop env.intBits releases [] <;> simp only [hl]

/-- Every error of the fetch comes with no releases and is not `ErrNotFound`. -/
theorem releases_error (env : Env) (s : Store) (all : List update.Release) (e : Error)
    (h : (s.releases env).outcome = .returns all (some e)) :
    all = [] ∧ e ≠ .ErrNotFound := by
  simp only [Store.releases] at h
  split at h
  · simp only [Outcome.returns.injEq, Option.some.injEq] at h
    obtain ⟨h1, h2⟩ := h
    subst h1 h2
    simp
  · split at h
    · simp only [Outcome.returns.injEq, Option.some.injEq] at h
      obtain ⟨h1, h2⟩ := h
      subst h1 h2
      simp
    · split at h
      · simp only [Outcome.returns.injEq, Option.some.injEq] at h
        obtain ⟨h1, h2⟩ := h
        subst h1 h2
        simp
      · split at h
        · simp only [Outcome.returns.injEq, Option.some.injEq] at h
          obtain ⟨h1, h2⟩ := h
          subst h1 h2
          simp
        · split at h <;> simp at h

theorem toSigned_of_isInt64 (x : Int) (h : isInt64 x) : toSigned 64 x = x := by
  unfold isInt64 at h
  unfold toSigned
  norm_num at h ⊢
  omega

theorem toSigned_of_fitsSigned (w : Nat) (x : Int) (hw : 0 < w) (h : fitsSigned w x) :
    toSigned w x = x := by
  obtain ⟨k, rfl⟩ : ∃ k, w = k + 1 := ⟨w - 1, by omega⟩
  unfold fitsSigned at h
  unfold toSigned
  simp only [Nat.add_sub_cancel] at h ⊢
  have hpow : (2 : Int) ^ (k + 1) = 2 * 2 ^ k := by ring
  have hpos : (0 : Int) < 2 ^ k := by positivity
  rw [hpow, Int.emod_eq_of_lt (by omega) (by omega)]
  omega

theorem toReleaseLoop_of_no_nil (intBits : Nat) (fs : List (Option Artifact))
    (assets : List update.Asset) (hnn : ∀ f ∈ fs, f ≠ none) :
    ∃ added, toReleaseLoop intBits fs assets = .ok (assets ++ added)
      ∧ added.length = fs.length
      ∧ ∀ (j : Nat) (f : Artifact), fs[j]? = some (some f) →
          added[j]? = some ⟨f.Name, toSigned intBits f.Size, f.URL⟩ := by
  induction fs generalizing assets with
  | nil => exact ⟨[], by simp [toReleaseLoop], rfl, by simp⟩
  | cons x fs ih =>
      cases x with
      | none => exact absurd rfl (hnn none (List.mem_cons_self _ _))
      | some f =>
          obtain ⟨added, h1, h2, h3⟩ :=
            ih (assets ++ [⟨f.Name, toSigned intBits f.Size, f.URL⟩])
              (fun g hg => hnn g (List.mem_cons_of_mem _ hg))
          refine ⟨⟨f.Name, toSigned intBits f.Size, f.URL⟩ :: added, ?_, by simp [h2], ?_⟩
          · simp [toReleaseLoop, h1]
          · intro j g hj
            cases j with
            | zero =>
                simp only [List.getElem?_cons_zero, Option.some.injEq] at hj
                subst hj
                simp
            | succ j =>
                simp only [List.getElem?_cons_succ] at hj ⊢
                exact h3 j g hj

theorem toRelease_of_no_nil (intBits : Nat) (r : Release)
    (hnn : ∀ f ∈ r.Artifacts, f ≠ none) :
    ∃ out, toRelease intBits (some r) = .ok out
      ∧ out.Version = r.Version ∧ out.Notes = r.Notes ∧ out.PublishedAt = r.CreatedAt
      ∧ out.Assets.length = r.Artifacts.length
      ∧ ∀ (j : Nat) (f : Artifact), r.Artifacts[j]? = some (some f) →
          out.Assets[j]? = some ⟨f.Name, toSigned intBits f.Size, f.URL⟩ := by
  obtain ⟨added, h1, h2, h3⟩ := toReleaseLoop_of_no_nil intBits r.Artifacts [] hnn
  refine ⟨⟨r.Version, r.Notes, r.CreatedAt, added⟩, ?_, rfl, rfl, rfl, h2, h3⟩
  simp only [toRelease, h1, List.nil_append]

theorem releasesLoop_of_no_nil (intBits : Nat) (W : List Release)
    (all : List update.Release) (hart : ∀ r ∈ W, ∀ f ∈ r.Artifacts, f ≠ none) :
    ∃ added, releasesLoop intBits (W.map some) all = .ok (all ++ added)
      ∧ added.length = W.length
      ∧ ∀ (i : Nat) (r : Release), W[i]? = some r →
          ∃ out, added[i]? = some out ∧ toRelease intBits (some r) = .ok out := by
  induction W generalizing all with
  | nil => exact ⟨[], by simp [releasesLoop], rfl, by simp⟩
  | cons w W ih =>
      obtain ⟨out, hout, -⟩ := toRelease_of_no_nil intBits w (hart w (List.mem_cons_self _ _))
      obtain ⟨added, h1, h2, h3⟩ :=
        ih (all ++ [out]) (fun r hr => hart r (List.mem_cons_of_mem _ hr))
      refine ⟨out :: added, ?_, by simp [h2], ?_⟩
      · simp [releasesLoop, hout, h1]
      · intro i r hi
        cases i with
        | zero =>
            simp only [List.getElem?_cons_zero, Option.some.injEq] at hi
            subst hi
            exact ⟨out, by simp, hout⟩
        | succ i =>
            simp only [List.getElem?_cons_succ] at hi ⊢
            exact h3 i r hi

/-! ## LatestReleases -/

/-- C1: after a successful fetch of the feed `F`, `LatestReleases` succeeds and returns
the longest prefix of `F` without a release of the configured version: it is a prefix
of `F`, none of its releases has that version, every prefix of `F` with that property
is a prefix of it, it is followed in `F` by a release of that version when one occurs,
and it is all of `F` otherwise. -/
theorem latestReleases_longest_prefix_before_version (env : Env) (s : Store)
    (F : List update.Release)
    (hfetch : (s.releases env).outcome = .returns F none) :
    ∃ L, (s.LatestReleases env).outcome = .returns L none
      ∧ L = F.takeWhile (fun r => decide (r.Version ≠ s.Version))
      ∧ L <+: F
      ∧ (∀ r ∈ L, r.Version ≠ s.Version)
      ∧ (∀ P, P <+: F → (∀ r ∈ P, r.Version ≠ s.Version) → P <+: L)
      ∧ ((∃ r ∈ F, r.Version = s.Version) →
          ∃ r rest, r.Version = s.Version ∧ F = L ++ r :: rest)
      ∧ ((∀ r ∈ F, r.Version ≠ s.Version) → L = F) := by
  refine ⟨F.takeWhile (fun r => decide (r.Version ≠ s.Version)), ?_, rfl, ?_, ?_, ?_, ?_, ?_⟩
  · simp only [Store.LatestReleases, hfetch, latestReleasesLoop_eq, List.nil_append]
  · obtain ⟨rest, h, -⟩ := takeWhile_append_rest (fun r => decide (r.Version ≠ s.Version)) F
    exact ⟨rest, h.symm⟩
  · intro r hr
    have := mem_takeWhile_holds _ F r hr
    simpa using this
  · intro P hP hall
    exact takeWhile_longest _ F P hP (fun x hx => by simpa using hall x hx)
  · rintro ⟨r, hr, hv⟩
    obtain ⟨rest, h, hhead⟩ := takeWhile_append_rest (fun r => decide (r.Version ≠ s.Version)) F
    cases rest with
    | nil =>
        exfalso
        rw [List.append_nil] at h
        rw [h] at hr
        have := mem_takeWhile_holds _ F r hr
        simp [hv] at this
    | cons x rest =>
        refine ⟨x, rest, ?_, h⟩
        have := hhead x (by simp)
        simpa using this
  · intro hall
    exact takeWhile_eq_self _ F (fun x hx => by simpa using hall x hx)

theorem latestReleases_longest_prefix_before_version_witness :
    ((sampleStore "stable" "1.5").releases sampleEnv).outcome
        = .returns [plainRelease "2.0", plainRelease "1.5", plainRelease "1.0"] none
      ∧ ((sampleStore "stable" "1.5").LatestReleases sampleEnv).outcome
        = .returns [plainRelease "2.0"] none
      ∧ ((sampleStore "beta" "9.9").LatestReleases sampleEnv).outcome
        = .returns [plainRelease "2.0", plainRelease "1.0"] none := by
  have h1 : ((sampleStore "stable" "1.5").releases sampleEnv).outcome
      = .returns [plainRelease "2.0", plainRelease "1.5", plainRelease "1.0"] none := by decide
  have h2 : ((sampleStore "beta" "9.9").releases sampleEnv).outcome
      = .returns [plainRelease "2.0", plainRelease "1.0"] none := by decide
  obtain ⟨L1, hL1, hE1, -⟩ :=
    latestReleases_longest_prefix_before_version sampleEnv (sampleStore "stable" "1.5") _ h1
  obtain ⟨L2, hL2, hE2, -⟩ :=
    latestReleases_longest_prefix_before_version sampleEnv (sampleStore "beta" "9.9") _ h2
  refine ⟨h1, ?_, ?_⟩
  · rw [hL1, hE1]; decide
  · rw [hL2, hE2]; decide

/-! ## GetRelease -/

/-- C2: after a successful fetch of the feed `F`, `GetRelease S` returns without error
the first release of `F` whose version is exactly `S` when there is one, and returns no
release with `ErrNotFound` when there is none (in particular when `F` is empty). -/
theorem getRelease_first_match_or_not_found (env : Env) (s : Store)
    (F : List update.Release) (S : String)
    (hfetch : (s.releases env).outcome = .returns F none) :
    ((∃ r ∈ F, r.Version = S) →
        ∃ pre r post, F = pre ++ r :: post ∧ r.Version = S ∧ (∀ x ∈ pre, x.Version ≠ S)
          ∧ (s.GetRelease env S).outcome = .returns (some r) none)
      ∧ ((∀ r ∈ F, r.Version ≠ S) →
          (s.GetRelease env S).outcome = .returns none (some .ErrNotFound))
      ∧ (F = [] → (s.GetRelease env S).outcome = .returns none (some .ErrNotFound)) := by
  have key : ∀ o, getReleaseLoop S F = o →
      (s.GetRelease env S).outcome
        = match o with
          | some r => .returns (some r) none
          | none => .returns none (some .ErrNotFound) := by
    intro o ho
    simp only [Store.GetRelease, hfetch, ho]
    cases o <;> rfl
  refine ⟨?_, ?_, ?_⟩
  · rintro ⟨r, hr, hv⟩
    rcases getReleaseLoop_spec S F with ⟨-, hall⟩ | ⟨pre, r2, post, hF, hv2, hpre, hsome⟩
    · exact absurd hv (hall r hr)
    · exact ⟨pre, r2, post, hF, hv2, hpre, key _ hsome⟩
  · intro hall
    rcases getReleaseLoop_spec S F with ⟨hnone, -⟩ | ⟨pre, r2, post, hF, hv2, -, -⟩
    · exact key _ hnone
    · exact absurd hv2 (hall r2 (by simp [hF]))
  · intro hF
    subst hF
    exact key _ rfl

theorem getRelease_first_match_or_not_found_witness :
    ((sampleStore "beta" "0.1").GetRelease sampleEnv "1.0").outcome
        = .returns (some (plainRelease "1.0")) none
      ∧ ((sampleStore "beta" "0.1").GetRelease sampleEnv "3.0").outcome
        = .returns none (some .ErrNotFound) := by
  have hf : ((sampleStore "beta" "0.1").releases sampleEnv).outcome
      = .returns [plainRelease "2.0", plainRelease "1.0"] none := by decide
  refine ⟨?_, (getRelease_first_match_or_not_found sampleEnv _ _ "3.0" hf).2.1 (by decide)⟩
  obtain ⟨pre, r, post, -, -, -, hout⟩ :=
    (getRelease_first_match_or_not_found sampleEnv _ _ "1.0" hf).1
      ⟨plainRelease "1.0", by decide, rfl⟩
  have hd : ((sampleStore "beta" "0.1").GetRelease sampleEnv "1.0").outcome
      = .returns (some (plainRelease "1.0")) none := by decide
  exact hd

/-! ## Status and decode errors of the fetch -/

/-- C3: when the transport answers the request with a status code `c ≥ 400`, whatever
the body, the fetch returns no releases and the status error carrying exactly `c`; a
second answer with the same code and another body (and any decoder) gives the same
result. -/
theorem releases_status_error (env : Env) (s : Store) (u : String) (c : Int) (body : String)
    (hreq : env.requestURL "GET" (s.URL ++ "/" ++ s.Product ++ "/" ++ s.Channel) = .ok u)
    (hdo : env.Do ⟨"GET", u, [("Authorization", "Bearer " ++ s.AccessKey)]⟩ = .ok ⟨c, body⟩)
    (hc : 400 ≤ c) :
    (s.releases env).outcome = .returns [] (some (.status c))
      ∧ ∀ (env2 : Env) (u2 body2 : String),
          env2.requestURL "GET" (s.URL ++ "/" ++ s.Product ++ "/" ++ s.Channel) = .ok u2 →
          env2.Do ⟨"GET", u2, [("Authorization", "Bearer " ++ s.AccessKey)]⟩
            = .ok ⟨c, body2⟩ →
          (s.releases env2).outcome = (s.releases env).outcome := by
  have h1 : (s.releases env).outcome = .returns [] (some (.status c)) := by
    rw [releases_of_response env s u _ hreq hdo]
    exact if_pos hc
  refine ⟨h1, ?_⟩
  intro env2 u2 body2 hreq2 hdo2
  rw [h1, releases_of_response env2 s u2 _ hreq2 hdo2]
  exact if_pos hc

theorem releases_status_error_witness :
    ((sampleStore "down" "1.0").releases sampleEnv).outcome = .returns [] (some (.status 500)) :=
  (releases_status_error sampleEnv (sampleStore "down" "1.0")
    "https://titan.example/app/down" 500 "oops" (by decide) (by decide) (by decide)).1

/-- C4, as stated, fails: the sample service answers the channel `choices` with the
non-2xx status 300 and a feed of two releases, and the fetch succeeds with these two
releases instead of failing with the status error 300. -/
theorem releases_multiple_choices_is_not_status_error :
    sampleDo ⟨"GET", "https://titan.example/app/choices", [("Authorization", "Bearer k3y")]⟩
        = .ok ⟨300, betaBody⟩
      ∧ ¬ (200 ≤ (300 : Int) ∧ (300 : Int) ≤ 299)
      ∧ ((sampleStore "choices" "1.0").releases sampleEnv).outcome
          = .returns [plainRelease "2.0", plainRelease "1.0"] none
      ∧ ((sampleStore "choices" "1.0").releases sampleEnv).outcome
          ≠ .returns [] (some (.status 300)) := by
  decide

/-- C4, amended: when the transport answers the request with a code `c` outside
200..299, whatever the body, the fetch fails with the status error carrying exactly `c`
if `c ≥ 400`. If `c < 400` the status is not an error and the body is decoded: the
fetch returns no releases and the decoder's error wrapped as `unmarshaling` when the
body fails to decode, the converted releases without error when it decodes (a panic
when the conversion panics), and in every case the very outcome of a fetch that is
answered with a 2xx code and the same body. -/
theorem releases_non_2xx (env : Env) (s : Store) (u : String) (c : Int) (body : String)
    (hreq : env.requestURL "GET" (s.URL ++ "/" ++ s.Product ++ "/" ++ s.Channel) = .ok u)
    (hdo : env.Do ⟨"GET", u, [("Authorization", "Bearer " ++ s.AccessKey)]⟩ = .ok ⟨c, body⟩)
    (hc : ¬ (200 ≤ c ∧ c ≤ 299)) :
    (400 ≤ c → (s.releases env).outcome = .returns [] (some (.status c)))
      ∧ (c < 400 →
          (∀ cause, env.Decode body = .error cause →
              (s.releases env).outcome = .returns [] (some (.wrap cause "unmarshaling")))
          ∧ (∀ W all, env.Decode body = .ok W → releasesLoop env.intBits W [] = .ok all →
              (s.releases env).outcome = .returns all none)
          ∧ (∀ W p, env.Decode body = .ok W → releasesLoop env.intBits W [] = .error p →
              (s.releases env).outcome = .panics p)
          ∧ (∀ (env2 : Env) (u2 : String) (c2 : Int), 200 ≤ c2 → c2 ≤ 299 →
              env2.intBits = env.intBits → env2.Decode body = env.Decode body →
              env2.requestURL "GET" (s.URL ++ "/" ++ s.Product ++ "/" ++ s.Channel) = .ok u2 →
              env2.Do ⟨"GET", u2, [("Authorization", "Bearer " ++ s.AccessKey)]⟩
                = .ok ⟨c2, body⟩ →
              (s.releases env2).outcome = (s.releases env).outcome)) := by
  have hlow : c < 200 ∨ 299 < c := by omega
  clear hc
  rw [releases_of_response env s u _ hreq hdo]
  refine ⟨fun h => if_pos h, ?_⟩
  intro h
  have hn : ¬ (c ≥ 400) := by omega
  simp only [hn, if_false]
  refine ⟨?_, ?_, ?_, ?_⟩
  · intro cause hd
    simp only [hd]
  · intro W all hd hl
    simp only [hd, hl]
  · intro W p hd hl
    simp only [hd, hl]
  · intro env2 u2 c2 h200 h299 hbits hdec hreq2 hdo2
    have hn2 : ¬ (c2 ≥ 400) := by omega
    rw [releases_of_response env2 s u2 _ hreq2 hdo2]
    simp only [hn2, if_false, hbits, hdec]

theorem releases_non_2xx_witness :
    ((sampleStore "gone" "1.0").releases sampleEnv).outcome = .returns [] (some (.status 404))
      ∧ ((sampleStore "choices" "1.0").releases sampleEnv).outcome
          = .returns [plainRelease "2.0", plainRelease "1.0"] none
      ∧ ((sampleStore "cached" "1.0").releases sampleEnv).outcome
          = .returns [] (some (.wrap "EOF" "unmarshaling"))
      ∧ ((sampleStore "choices" "1.0").releases sampleEnv).outcome
          = ((sampleStore "choices" "1.0").releases sampleEnv200).outcome :=
  ⟨(releases_non_2xx sampleEnv (sampleStore "gone" "1.0") "https://titan.example/app/gone"
      404 "[]" (by decide) (by decide) (by decide)).1 (by decide),
   ((releases_non_2xx sampleEnv (sampleStore "choices" "1.0")
      "https://titan.example/app/choices" 300 betaBody
      (by decide) (by decide) (by decide)).2 (by decide)).2.1
        [some (wireRelease "2.0"), some (wireRelease "1.0")] _ (by decide) (by decide),
   ((releases_non_2xx sampleEnv (sampleStore "cached" "1.0")
      "https://titan.example/app/cached" 304 ""
      (by decide) (by decide) (by decide)).2 (by decide)).1 "EOF" (by decide),
   (((releases_non_2xx sampleEnv (sampleStore "choices" "1.0")
      "https://titan.example/app/choices" 300 betaBody
      (by decide) (by decide) (by decide)).2 (by decide)).2.2.2
        sampleEnv200 "https://titan.example/app/choices" 200 (by decide) (by decide) rfl rfl
        (by decide) (by decide)).symm⟩

/-- C5: when the transport answers the request with a status code below 400 and the
decoder fails on the body with `cause`, the fetch returns no releases and the error
`cause` wrapped as `unmarshaling`; it does not return successfully. -/
theorem releases_decode_error (env : Env) (s : Store) (u : String) (c : Int)
    (body cause : String)
    (hreq : env.requestURL "GET" (s.URL ++ "/" ++ s.Product ++ "/" ++ s.Channel) = .ok u)
    (hdo : env.Do ⟨"GET", u, [("Authorization", "Bearer " ++ s.AccessKey)]⟩ = .ok ⟨c, body⟩)
    (hc : c < 400) (hdec : env.Decode body = .error cause) :
    (s.releases env).outcome = .returns [] (some (.wrap cause "unmarshaling"))
      ∧ ∀ all, (s.releases env).outcome ≠ .returns all none := by
  have hn : ¬ (c ≥ 400) := by omega
  have h1 : (s.releases env).outcome = .returns [] (some (.wrap cause "unmarshaling")) := by
    rw [releases_of_response env s u _ hreq hdo]
    simp only [hn, if_false, hdec]
  refine ⟨h1, ?_⟩
  intro all h
  rw [h1] at h
  simp at h

theorem releases_decode_error_witness :
    ((sampleStore "broken" "1.0").releases sampleEnv).outcome
      = .returns [] (some (.wrap "unexpected EOF" "unmarshaling")) :=
  (releases_decode_error sampleEnv (sampleStore "broken" "1.0")
    "https://titan.example/app/broken" 200 "[\x7b\"version\":"
    "unexpected EOF" (by decide) (by decide) (by decide) (by decide)).1

/-! ## Propagation of fetch errors -/

/-- C6: when the fetch returns an error `e`, that error is not `ErrNotFound`,
`GetRelease S` returns no release and exactly `e` for every `S`, and `LatestReleases`
returns no releases and exactly `e`; and whenever either operation returns an error,
it returns no release with it. -/
theorem fetch_error_propagates (env : Env) (s : Store) :
    (∀ all e, (s.releases env).outcome = .returns all (some e) →
        e ≠ .ErrNotFound
          ∧ (∀ S, (s.GetRelease env S).outcome = .returns none (some e))
          ∧ (s.LatestReleases env).outcome = .returns [] (some e))
      ∧ (∀ S r err, (s.GetRelease env S).outcome = .returns r (some err) → r = none)
      ∧ (∀ latest err, (s.LatestReleases env).outcome = .returns latest (some err) →
          latest = []) := by
  refine ⟨?_, ?_, ?_⟩
  · intro all e h
    refine ⟨(releases_error env s all e h).2, ?_, ?_⟩
    · intro S
      simp only [Store.GetRelease, h]
    · simp only [Store.LatestReleases, h]
  · intro S r err h
    simp only [Store.GetRelease] at h
    split at h
    · simp at h
    · simp only [Outcome.returns.injEq] at h
      exact h.1.symm
    · split at h
      · simp at h
      · simp only [Outcome.returns.injEq] at h
        exact h.1.symm
  · intro latest err h
    simp only [Store.LatestReleases] at h
    split at h
    · simp at h
    · simp only [Outcome.returns.injEq] at h
      exact h.1.symm
    · simp at h

theorem fetch_error_propagates_witness :
    ((sampleStore "down" "1.0").GetRelease sampleEnv "1.0").outcome
        = .returns none (some (.status 500))
      ∧ ((sampleStore "down" "1.0").LatestReleases sampleEnv).outcome
        = .returns [] (some (.status 500)) :=
  have h := (fetch_error_propagates sampleEnv (sampleStore "down" "1.0")).1
    [] (.status 500) (by decide)
  ⟨h.2.1 "1.0", h.2.2⟩

/-! ## Conversion of the wire releases -/

/-- C7, as stated, fails: on a 32-bit platform the sample service's channel `full`,
whose second artifact has the wire size 5000000000, is fetched with that asset's size
705032704. -/
theorem releases_truncates_size_on_32_bit :
    sampleEnv32.Decode fullBody = .ok [some fullRelease]
      ∧ fullRelease.Artifacts
          = [some ⟨"app.tgz", "https://dl.example/app.tgz", 1024⟩,
             some ⟨"app.zip", "https://dl.example/app.zip", 5000000000⟩]
      ∧ ((sampleStore "full" "1.0").releases sampleEnv32).outcome
          = .returns [⟨"2.0", "fixes", ⟨63631872000, 0⟩,
              [⟨"app.tgz", 1024, "https://dl.example/app.tgz"⟩,
               ⟨"app.zip", 705032704, "https://dl.example/app.zip"⟩]⟩] none
      ∧ (705032704 : Int) ≠ 5000000000 := by
  decide

/-- C7, amended: when the transport answers the request with a status code below 400
and the body decodes to the wire releases `W` (no null release, no null artifact), the
fetch returns without error as many releases as `W` has, the `i`-th being `toRelease`
of the `i`-th of `W`: same version and notes, the creation date as publication date,
and as many assets as artifacts, the `j`-th with the name and URL of the `j`-th
artifact and its size converted to Go `int`, that is wrapped to the signed range of
`int`: the size itself when it fits that range, as every `int64` does on a 64-bit
platform. Changing the `NotesHTML` of a wire release does not change its conversion. -/
theorem releases_converts_each_release (env : Env) (s : Store) (u : String) (c : Int)
    (body : String) (W : List Release)
    (hreq : env.requestURL "GET" (s.URL ++ "/" ++ s.Product ++ "/" ++ s.Channel) = .ok u)
    (hdo : env.Do ⟨"GET", u, [("Authorization", "Bearer " ++ s.AccessKey)]⟩ = .ok ⟨c, body⟩)
    (hc : c < 400) (hdec : env.Decode body = .ok (W.map some))
    (hart : ∀ r ∈ W, ∀ f ∈ r.Artifacts, f ≠ none) :
    (∃ all, (s.releases env).outcome = .returns all none
        ∧ all.length = W.length
        ∧ ∀ (i : Nat) (r : Release), W[i]? = some r →
            ∃ out, all[i]? = some out
              ∧ toRelease env.intBits (some r) = .ok out
              ∧ out.Version = r.Version ∧ out.Notes = r.Notes
              ∧ out.PublishedAt = r.CreatedAt
              ∧ out.Assets.length = r.Artifacts.length
              ∧ ∀ (j : Nat) (f : Artifact), r.Artifacts[j]? = some (some f) →
                  ∃ a, out.Assets[j]? = some a
                    ∧ a.Name = f.Name ∧ a.URL = f.URL
                    ∧ a.Size = toSigned env.intBits f.Size
                    ∧ a.Size = (f.Size + 2 ^ (env.intBits - 1)) % 2 ^ env.intBits
                        - 2 ^ (env.intBits - 1)
                    ∧ (0 < env.intBits → fitsSigned env.intBits f.Size → a.Size = f.Size)
                    ∧ (env.intBits = 64 → isInt64 f.Size → a.Size = f.Size))
      ∧ ∀ (r : Release) (html : String),
          toRelease env.intBits (some { r with NotesHTML := html })
            = toRelease env.intBits (some r) := by
  refine ⟨?_, fun r html => rfl⟩
  have hn : ¬ (c ≥ 400) := by omega
  obtain ⟨all, h1, h2, h3⟩ := releasesLoop_of_no_nil env.intBits W [] hart
  refine ⟨all, ?_, h2, ?_⟩
  · rw [releases_of_response env s u _ hreq hdo]
    simp only [hn, if_false, hdec, h1, List.nil_append]
  · intro i r hi
    obtain ⟨out, ho1, ho2⟩ := h3 i r hi
    obtain ⟨out2, hr1, hr2, hr3, hr4, hr5, hr6⟩ :=
      toRelease_of_no_nil env.intBits r (hart r (List.getElem?_mem hi))
    have heq : out2 = out := by
      rw [hr1] at ho2
      exact Except.ok.inj ho2
    subst heq
    refine ⟨out2, ho1, hr1, hr2, hr3, hr4, hr5, ?_⟩
    intro j f hj
    refine ⟨_, hr6 j f hj, rfl, rfl, rfl, rfl, ?_, ?_⟩
    · intro hw hf
      exact toSigned_of_fitsSigned _ _ hw hf
    · intro h64 hf
      show toSigned env.intBits f.Size = f.Size
      rw [h64]
      exact toSigned_of_isInt64 _ hf

theorem releases_converts_each_release_witness :
    ((sampleStore "full" "1.0").releases sampleEnv).outcome
      = .returns [⟨"2.0", "fixes", ⟨63631872000, 0⟩,
          [⟨"app.tgz", 1024, "https://dl.example/app.tgz"⟩,
           ⟨"app.zip", 5000000000, "https://dl.example/app.zip"⟩]⟩] none := by
  obtain ⟨⟨all, h1, -, h3⟩, -⟩ :=
    releases_converts_each_release sampleEnv (sampleStore "full" "1.0")
      "https://titan.example/app/full" 200 fullBody
      [fullRelease] (by decide) (by decide) (by decide) (by decide) (by decide)
  obtain ⟨out, ho, hconv, -⟩ := h3 0 fullRelease rfl
  have hout : out = ⟨"2.0", "fixes", ⟨63631872000, 0⟩,
          [⟨"app.tgz", 1024, "https://dl.example/app.tgz"⟩,
           ⟨"app.zip", 5000000000, "https://dl.example/app.zip"⟩]⟩ := by
    have hd : toRelease sampleEnv.intBits (some fullRelease)
        = .ok ⟨"2.0", "fixes", ⟨63631872000, 0⟩,
          [⟨"app.tgz", 1024, "https://dl.example/app.tgz"⟩,
           ⟨"app.zip", 5000000000, "https://dl.example/app.zip"⟩]⟩ := by decide
    rw [hd] at hconv
    exact (Except.ok.inj hconv).symm
  have hd2 : ((sampleStore "full" "1.0").releases sampleEnv).outcome
      = .returns [⟨"2.0", "fixes", ⟨63631872000, 0⟩,
          [⟨"app.tgz", 1024, "https://dl.example/app.tgz"⟩,
           ⟨"app.zip", 5000000000, "https://dl.example/app.zip"⟩]⟩] none := by decide
  exact hd2

/-! ## The request -/

/-- C8, as stated, fails: for a store whose product is `my app`, the request that the
fetch sends to the sample service has the URL `https://titan.example/my%20app/stable`,
which is not `URL/Product/Channel`. -/
theorem releases_request_url_is_parsed :
    (spacedStore.releases sampleEnv).sent
        = [⟨"GET", "https://titan.example/my%20app/stable",
            [("Authorization", "Bearer k3y")]⟩]
      ∧ spacedStore.URL ++ "/" ++ spacedStore.Product ++ "/" ++ spacedStore.Channel
          = "https://titan.example/my app/stable"
      ∧ "https://titan.example/my%20app/stable"
          ≠ spacedStore.URL ++ "/" ++ spacedStore.Product ++ "/" ++ spacedStore.Channel := by
  decide

/-- C8, amended: the fetch calls `http.NewRequest` with the method `GET` and exactly the
string `URL/Product/Channel`. When that call fails no request is sent; when it gives
the request the URL `u`, exactly one request is sent: a `GET` of `u` whose only header
is `Authorization` with the value `Bearer AccessKey`. In particular the URL of the
request is the string `URL/Product/Channel` itself whenever `http.NewRequest` keeps
that string. The configured `Version` changes nothing in the fetch. -/
theorem releases_request (env : Env) (s : Store) :
    (∀ req ∈ (s.releases env).sent,
        req.Method = "GET"
          ∧ env.requestURL "GET" (s.URL ++ "/" ++ s.Product ++ "/" ++ s.Channel) = .ok req.URL
          ∧ req.Header = [("Authorization", "Bearer " ++ s.AccessKey)]
          ∧ Header.Get req.Header "Authorization" = some ("Bearer " ++ s.AccessKey))
      ∧ (∀ u, env.requestURL "GET" (s.URL ++ "/" ++ s.Product ++ "/" ++ s.Channel) = .ok u →
          (s.releases env).sent
            = [⟨"GET", u, [("Authorization", "Bearer " ++ s.AccessKey)]⟩])
      ∧ (env.requestURL "GET" (s.URL ++ "/" ++ s.Product ++ "/" ++ s.Channel)
            = .ok (s.URL ++ "/" ++ s.Product ++ "/" ++ s.Channel) →
          (s.releases env).sent
            = [⟨"GET", s.URL ++ "/" ++ s.Product ++ "/" ++ s.Channel,
                [("Authorization", "Bearer " ++ s.AccessKey)]⟩])
      ∧ (∀ e, env.requestURL "GET" (s.URL ++ "/" ++ s.Product ++ "/" ++ s.Channel)
            = .error e →
          (s.releases env).sent = []
            ∧ (s.releases env).outcome = .returns [] (some (.wrap e "creating request")))
      ∧ ∀ version, Store.releases env { s with Version := version } = s.releases env := by
  have hok : ∀ u,
      env.requestURL "GET" (s.URL ++ "/" ++ s.Product ++ "/" ++ s.Channel) = .ok u →
      (s.releases env).sent
        = [⟨"GET", u, [("Authorization", "Bearer " ++ s.AccessKey)]⟩] := by
    intro u h
    simp only [Store.releases, NewRequest, h, Header.Set, List.filter_nil, List.nil_append]
    split
    · rfl
    · split
      · rfl
      · split
        · rfl
        · split <;> rfl
  have herr : ∀ e,
      env.requestURL "GET" (s.URL ++ "/" ++ s.Product ++ "/" ++ s.Channel) = .error e →
      (s.releases env).sent = []
        ∧ (s.releases env).outcome = .returns [] (some (.wrap e "creating request")) := by
    intro e h
    simp only [Store.releases, NewRequest, h, and_self]
  refine ⟨?_, hok, fun h => hok _ h, herr, fun version => rfl⟩
  intro req hreq
  cases h : env.requestURL "GET" (s.URL ++ "/" ++ s.Product ++ "/" ++ s.Channel) with
  | error e =>
      rw [(herr e h).1] at hreq
      exact absurd hreq (List.not_mem_nil _)
  | ok u =>
      rw [hok u h] at hreq
      have hr : req = ⟨"GET", u, [("Authorization", "Bearer " ++ s.AccessKey)]⟩ := by
        simpa using hreq
      subst hr
      refine ⟨rfl, rfl, rfl, ?_⟩
      simp [Header.Get]

theorem releases_request_witness :
    ((sampleStore "stable" "1.5").releases sampleEnv).sent
      = [⟨"GET", "https://titan.example/app/stable", [("Authorization", "Bearer k3y")]⟩] :=
  (releases_request sampleEnv (sampleStore "stable" "1.5")).2.2.1 (by decide)

/-! ## The empty version -/

/-- C9, as stated, fails: the sample service serves on the channel `blank` a feed
whose only release has the empty version, and `GetRelease ""` returns that release
without error instead of failing with `ErrNotFound`. -/
theorem getRelease_empty_version_can_match :
    ((sampleStore "blank" "1.0").releases sampleEnv).outcome
        = .returns [plainRelease ""] none
      ∧ ((sampleStore "blank" "1.0").GetRelease sampleEnv "").outcome
        = .returns (some (plainRelease "")) none
      ∧ ((sampleStore "blank" "1.0").GetRelease sampleEnv "").outcome
        ≠ .returns none (some .ErrNotFound) := by
  decide

/-- C9, amended: after a successful fetch of the feed `F`, `GetRelease ""` fails with
`ErrNotFound` when no release of `F` has the empty version, and returns without error
the first release of `F` with the empty version when there is one. -/
theorem getRelease_empty_version (env : Env) (s : Store) (F : List update.Release)
    (hfetch : (s.releases env).outcome = .returns F none) :
    ((∀ r ∈ F, r.Version ≠ "") →
        (s.GetRelease env "").outcome = .returns none (some .ErrNotFound))
      ∧ ((∃ r ∈ F, r.Version = "") →
          ∃ pre r post, F = pre ++ r :: post ∧ r.Version = "" ∧ (∀ x ∈ pre, x.Version ≠ "")
            ∧ (s.GetRelease env "").outcome = .returns (some r) none) := by
  refine ⟨?_, ?_⟩
  · intro hall
    rcases getReleaseLoop_spec "" F with ⟨hnone, -⟩ | ⟨pre, r2, post, hF, hv2, -, -⟩
    · simp only [Store.GetRelease, hfetch, hnone]
    · exact absurd hv2 (hall r2 (by simp [hF]))
  · rintro ⟨r, hr, hv⟩
    rcases getReleaseLoop_spec "" F with ⟨-, hall⟩ | ⟨pre, r2, post, hF, hv2, hpre, hsome⟩
    · exact absurd hv (hall r hr)
    · refine ⟨pre, r2, post, hF, hv2, hpre, ?_⟩
      simp only [Store.GetRelease, hfetch, hsome]

theorem getRelease_empty_version_witness :
    ((sampleStore "beta" "0.1").GetRelease sampleEnv "").outcome
      = .returns none (some .ErrNotFound) :=
  (getRelease_empty_version sampleEnv (sampleStore "beta" "0.1")
    [plainRelease "2.0", plainRelease "1.0"] (by decide)).1 (by decide)

/-! ## Null entries -/

/-- C10 fails on the code: a body that decodes to an array with a null release, or to
a release with a null artifact, makes the fetch, and with it `GetRelease` and
`LatestReleases`, panic on a nil pointer instead of returning. -/
theorem releases_null_entry_panics :
    sampleDecode "[null]" = .ok [none]
      ∧ ((sampleStore "null" "1.0").releases sampleEnv).outcome = .panics .nilDereference
      ∧ ((sampleStore "nullartifact" "1.0").releases sampleEnv).outcome
          = .panics .nilDereference
      ∧ ((sampleStore "null" "1.0").GetRelease sampleEnv "1.0").outcome
          = .panics .nilDereference
      ∧ ((sampleStore "null" "1.0").LatestReleases sampleEnv).outcome
          = .panics .nilDereference := by
  decide

end Titan
